import Mathlib

/-!
Verification of the curve-curve intersection helpers of the bezier
repository: bounding-box pruning, linearization-error estimation,
hodograph (derivative) evaluation and the Newton-refinement step.

The numeric model is exact rational arithmetic (ℚ for coordinates and
parameters, ℝ only where a Euclidean norm forces a square root); every
concrete value exercised below is a dyadic rational on which binary
floating point is exact.
-/

namespace Bezier

/-- A planar control point (x, y). -/
abbrev Point := ℚ × ℚ

/-- Modelled from the spec: one round of Bernstein-basis (de Casteljau)
affine blending at parameter `s`: each consecutive pair of points `p, q`
is replaced by `(1-s)·p + s·q`. -/
def blendStep (s : ℚ) (l : List Point) : List Point :=
  List.zipWith (fun p q => ((1 - s) * p.1 + s * q.1, (1 - s) * p.2 + s * q.2)) l l.tail

/-- Repeated de Casteljau blending: apply `blendStep` the given number of
times and return the single remaining point. -/
def deCasteljau (s : ℚ) : Nat → List Point → Point
  | 0, l => l.headD (0, 0)
  | n + 1, l => deCasteljau s n (blendStep s l)

/-- Modelled from the spec: `evaluate(curve, s)` evaluates the Bezier
curve with the given control points at parameter `s` via repeated affine
(Bernstein-basis) blending; parameters outside `[0,1]` are accepted. -/
def evaluate (nodes : List Point) (s : ℚ) : Point :=
  deCasteljau s (nodes.length - 1) nodes

theorem length_blendStep (s : ℚ) (l : List Point) :
    (blendStep s l).length = l.length - 1 := by
  simp [blendStep]

/-- Modelled from the spec: the left half of the classic de Casteljau
split at `s = 1/2` collects the first point of every blending level. -/
def splitLeft : List Point → List Point
  | [] => []
  | p :: rest => p :: splitLeft (blendStep (1/2) (p :: rest))
  termination_by l => l.length
  decreasing_by simp [length_blendStep]

/-- The last point of every de Casteljau blending level at `s = 1/2`,
from level 0 down to the single final point. -/
def splitRightRev : List Point → List Point
  | [] => []
  | p :: rest => (p :: rest).getLastD p :: splitRightRev (blendStep (1/2) (p :: rest))
  termination_by l => l.length
  decreasing_by simp [length_blendStep]

/-- Modelled from the spec: the right half of the de Casteljau split at
`s = 1/2`, its control points running from the split point to the last
original control point. -/
def splitRight (l : List Point) : List Point :=
  (splitRightRev l).reverse

/-- Modelled from the spec: `subdivide(curve)` splits the curve at
`s = 0.5` into a left and a right Bezier curve of the same degree. -/
def subdivide (l : List Point) : List Point × List Point :=
  (splitLeft l, splitRight l)

/-- Smallest element of a list of rationals (0 for an empty list). -/
def listMin : List ℚ → ℚ
  | [] => 0
  | x :: xs => xs.foldl min x

/-- Largest element of a list of rationals (0 for an empty list). -/
def listMax : List ℚ → ℚ
  | [] => 0
  | x :: xs => xs.foldl max x

/-- Modelled from the spec: `bbox_intersect(nodes1, nodes2)` compares the
axis-aligned bounding boxes of the two control polygons and requires, on
every axis, `max(min1, min2) < min(max1, max2)` with strict inequality. -/
def bbox_intersect (nodes1 nodes2 : List Point) : Bool :=
  decide (max (listMin (nodes1.map Prod.fst)) (listMin (nodes2.map Prod.fst)) <
          min (listMax (nodes1.map Prod.fst)) (listMax (nodes2.map Prod.fst))) &&
  decide (max (listMin (nodes1.map Prod.snd)) (listMin (nodes2.map Prod.snd)) <
          min (listMax (nodes1.map Prod.snd)) (listMax (nodes2.map Prod.snd)))

/-- Modelled from the spec: first differences of the control points,
`d1[i] = p[i+1] - p[i]`. -/
def first_diffs (l : List Point) : List Point :=
  List.zipWith (fun p q => (q.1 - p.1, q.2 - p.2)) l l.tail

/-- Modelled from the spec: second differences of the control points,
the first differences of the first differences. -/
def second_diffs (l : List Point) : List Point :=
  first_diffs (first_diffs l)

/-- Squared Euclidean norm of a planar vector. -/
def sqNorm (v : Point) : ℚ :=
  v.1 ^ 2 + v.2 ^ 2

/-- Largest squared Euclidean norm over a list of vectors (0 if empty). -/
def maxSqNorm (l : List Point) : ℚ :=
  l.foldr (fun v acc => max (sqNorm v) acc) 0

/-- Modelled from the spec: `linearization_error(curve)` is 0 for degree
at most 1, and `(degree·(degree-1)/8) · max_i ‖d2[i]‖` (Euclidean norm of
the second differences) for degree at least 2.  The maximum of the norms
is computed as the square root of the maximum squared norm. -/
noncomputable def linearization_error (nodes : List Point) : ℝ :=
  let d := nodes.length - 1
  if d ≤ 1 then 0
  else ((d * (d - 1) : ℕ) : ℝ) / 8 * Real.sqrt ((maxSqNorm (second_diffs nodes) : ℚ) : ℝ)

/-- Largest Euclidean norm over a list of vectors, written directly with
per-vector square roots (0 if empty). -/
noncomputable def maxEuclidNorm (l : List Point) : ℝ :=
  l.foldr (fun v acc => max (Real.sqrt ((v.1 : ℝ) ^ 2 + (v.2 : ℝ) ^ 2)) acc) 0

/-- Modelled from the spec: the control points of the hodograph
(derivative) curve, `degree · (p[i+1] - p[i])`, one degree lower. -/
def hodograph_nodes (nodes : List Point) : List Point :=
  List.zipWith
    (fun p q => (((nodes.length - 1 : ℕ) : ℚ) * (q.1 - p.1),
                 ((nodes.length - 1 : ℕ) : ℚ) * (q.2 - p.2)))
    nodes nodes.tail

/-- Modelled from the spec: `derivative(curve, s)` evaluates the
hodograph curve at `s` with the same blending rule as `evaluate`. -/
def evaluate_hodograph (nodes : List Point) (s : ℚ) : Point :=
  evaluate (hodograph_nodes nodes) s

/-- Modelled from the spec: one Newton-Raphson step for
`curve1(s) = curve2(t)`.  The residual `F = curve1(s) - curve2(t)` is
computed first; if it is exactly zero the pair is returned unchanged.
Otherwise the 2×2 Jacobian with columns `curve1'(s)` and `-curve2'(t)` is
formed and `J·Δ = -F` is solved by the determinant (Cramer) rule; a zero
determinant is the singular case, signalled distinctly as `none`. -/
def newton_refine (s : ℚ) (nodes1 : List Point) (t : ℚ) (nodes2 : List Point) :
    Option (ℚ × ℚ) :=
  let p1 := evaluate nodes1 s
  let p2 := evaluate nodes2 t
  let fx := p1.1 - p2.1
  let fy := p1.2 - p2.2
  if fx = 0 ∧ fy = 0 then some (s, t)
  else
    let d1 := evaluate_hodograph nodes1 s
    let d2 := evaluate_hodograph nodes2 t
    let det := d1.1 * (-d2.2) - (-d2.1) * d1.2
    if det = 0 then none
    else
      some (s + ((-fx) * (-d2.2) - (-d2.1) * (-fy)) / det,
            t + (d1.1 * (-fy) - (-fx) * d1.2) / det)

/-- Control points of the quadratic test curve `[[0,0],[0.5,1],[1,0]]`. -/
def nodesQuad1 : List Point := [(0, 0), (1/2, 1), (1, 0)]

/-- Control points of the quadratic test curve
`[[1,0.75],[0.5,-0.25],[0,0.75]]`. -/
def nodesQuad2 : List Point := [(1, 3/4), (1/2, -(1/4)), (0, 3/4)]

/-- Control points of the linear test curve `[[1,0],[0,1]]`. -/
def nodesLine : List Point := [(1, 0), (0, 1)]

/-- Control points of the linear test curve `[[0,0],[1,1]]`. -/
def nodesLin1 : List Point := [(0, 0), (1, 1)]

/-- Control points of the linear test curve `[[1,0],[0,3]]`. -/
def nodesLin2 : List Point := [(1, 0), (0, 3)]

/-- Control points of the quartic test curve
`[[0,0],[0.25,1],[0.5,-0.75],[0.75,1],[1,0]]`. -/
def nodesQuartic : List Point := [(0, 0), (1/4, 1), (1/2, -(3/4)), (3/4, 1), (1, 0)]

/-- Control points of the vertical test line `[[0.5,0],[0.5,1]]`. -/
def nodesVLine : List Point := [(1/2, 0), (1/2, 1)]

/-- Control points of the unit square. -/
def unitSquare : List Point := [(0, 0), (1, 0), (1, 1), (0, 1)]

/-- Translate every control point by `dx` along the x axis. -/
def shiftX (dx : ℚ) (l : List Point) : List Point :=
  l.map (fun p => (p.1 + dx, p.2))

theorem evaluate_line (p0 p1 : Point) (s : ℚ) :
    evaluate [p0, p1] s = ((1 - s) * p0.1 + s * p1.1, (1 - s) * p0.2 + s * p1.2) := by
  simp [evaluate, deCasteljau, blendStep]

theorem evaluate_hodograph_line (p0 p1 : Point) (s : ℚ) :
    evaluate_hodograph [p0, p1] s = (p1.1 - p0.1, p1.2 - p0.2) := by
  simp [evaluate_hodograph, hodograph_nodes, evaluate, deCasteljau]


/-- Claim C8: bbox_intersect is symmetric in its two control-point sets. -/
theorem bbox_intersect_symm (n1 n2 : List Point) :
    bbox_intersect n1 n2 = bbox_intersect n2 n1 := by
  simp only [bbox_intersect]
  rw [max_comm (listMin (List.map Prod.fst n1)), min_comm (listMax (List.map Prod.fst n1)),
      max_comm (listMin (List.map Prod.snd n1)), min_comm (listMax (List.map Prod.snd n1))]

/-- Claim C6: if the two curve points coincide exactly, newton_refine
returns the parameter pair unchanged (early exit, no Newton step). -/
theorem newton_refine_early_exit (nodes1 nodes2 : List Point) (s t : ℚ)
    (h : evaluate nodes1 s = evaluate nodes2 t) :
    newton_refine s nodes1 t nodes2 = some (s, t) := by
  simp [newton_refine, h]

/-- Witness for the early-exit law at an exact root of the two quadratics. -/
theorem newton_refine_early_exit_witness :
    evaluate nodesQuad1 (1/4) = evaluate nodesQuad2 (3/4) ∧
    newton_refine (1/4) nodesQuad1 (3/4) nodesQuad2 = some (1/4, 3/4) :=
  ⟨by norm_num [nodesQuad1, nodesQuad2, evaluate, deCasteljau, blendStep],
   newton_refine_early_exit _ _ _ _
     (by norm_num [nodesQuad1, nodesQuad2, evaluate, deCasteljau, blendStep])⟩

/-- Claim C2: bbox_intersect demands strict inequality on every axis, so
boxes that merely touch (equality of the clipped extremes on some axis)
are reported as non-intersecting; in particular two unit squares offset
by exactly (1,0), and by (1 + 2^-52, 0), both give false. -/
theorem bbox_intersect_strict :
    (∀ n1 n2 : List Point, bbox_intersect n1 n2 = true ↔
      (max (listMin (n1.map Prod.fst)) (listMin (n2.map Prod.fst)) <
         min (listMax (n1.map Prod.fst)) (listMax (n2.map Prod.fst)) ∧
       max (listMin (n1.map Prod.snd)) (listMin (n2.map Prod.snd)) <
         min (listMax (n1.map Prod.snd)) (listMax (n2.map Prod.snd))))
    ∧ (∀ n1 n2 : List Point,
        (max (listMin (n1.map Prod.fst)) (listMin (n2.map Prod.fst)) =
           min (listMax (n1.map Prod.fst)) (listMax (n2.map Prod.fst)) ∨
         max (listMin (n1.map Prod.snd)) (listMin (n2.map Prod.snd)) =
           min (listMax (n1.map Prod.snd)) (listMax (n2.map Prod.snd))) →
        bbox_intersect n1 n2 = false)
    ∧ bbox_intersect unitSquare (shiftX 1 unitSquare) = false
    ∧ bbox_intersect unitSquare (shiftX (1 + 1/2^52) unitSquare) = false := by
  refine ⟨fun n1 n2 => ?_, fun n1 n2 h => ?_, ?_, ?_⟩
  · simp [bbox_intersect]
  · rcases h with h | h <;> simp [bbox_intersect, h]
  · norm_num [bbox_intersect, unitSquare, shiftX, listMin, listMax]
  · norm_num [bbox_intersect, unitSquare, shiftX, listMin, listMax]

/-- Witness for the touching-boxes law at the two edge-sharing unit squares. -/
theorem bbox_intersect_strict_witness :
    (max (listMin (unitSquare.map Prod.fst)) (listMin ((shiftX 1 unitSquare).map Prod.fst)) =
       min (listMax (unitSquare.map Prod.fst)) (listMax ((shiftX 1 unitSquare).map Prod.fst)))
    ∧ bbox_intersect unitSquare (shiftX 1 unitSquare) = false :=
  ⟨by norm_num [unitSquare, shiftX, listMin, listMax],
   bbox_intersect_strict.2.1 _ _
     (Or.inl (by norm_num [unitSquare, shiftX, listMin, listMax]))⟩

/-- Claim C1 counterexample: on the two quadratics the Jacobian at
(1/4, 1/4) is singular, so newton_refine does not return (0.4375, 0.5625)
there. -/
theorem newton_refine_quadratics_counterexample :
    newton_refine (1/4) nodesQuad1 (1/4) nodesQuad2 ≠ some (7/16, 9/16) := by
  have h : newton_refine (1/4) nodesQuad1 (1/4) nodesQuad2 = none := by
    norm_num [newton_refine, nodesQuad1, nodesQuad2, evaluate, deCasteljau, blendStep,
      evaluate_hodograph, hodograph_nodes]
  rw [h]
  simp

/-- Claim C1 (amended): with the line [[1,0],[0,1]] as second curve,
refining from (1/4, 1/4) yields exactly (7/16, 9/16), strictly closer in
each coordinate to the true root (1/2, 1/2); on the quadratic pair as
originally stated the Jacobian is singular and refinement signals it. -/
theorem newton_refine_mixed_degree :
    newton_refine (1/4) nodesQuad1 (1/4) nodesLine = some (7/16, 9/16)
    ∧ evaluate nodesQuad1 (1/2) = evaluate nodesLine (1/2)
    ∧ |(1/2 : ℚ) - 7/16| < |(1/2 : ℚ) - 1/4| ∧ |(1/2 : ℚ) - 9/16| < |(1/2 : ℚ) - 1/4|
    ∧ newton_refine (1/4) nodesQuad1 (1/4) nodesQuad2 = none := by
  refine ⟨?_, ?_, ?_, ?_, ?_⟩ <;>
    norm_num [newton_refine, nodesQuad1, nodesQuad2, nodesLine, evaluate, deCasteljau,
      blendStep, evaluate_hodograph, hodograph_nodes, abs_of_pos, abs_of_neg, abs_sub_lt_iff]

/-- Claim C9: newton_refine does not clamp to the unit square: from (0,0)
on the quartic against the vertical line the first call returns exactly
(1/2, 2) with 2 outside [0,1]; the out-of-range iterate is accepted and
the iteration reaches the exact root (1/2, 7/32) at the next call, the
third call repeating it. -/
theorem newton_refine_unclamped_convergence :
    newton_refine 0 nodesQuartic 0 nodesVLine = some (1/2, 2)
    ∧ (1 : ℚ) < 2
    ∧ newton_refine (1/2) nodesQuartic 2 nodesVLine = some (1/2, 7/32)
    ∧ newton_refine (1/2) nodesQuartic (7/32) nodesVLine = some (1/2, 7/32)
    ∧ evaluate nodesQuartic (1/2) = evaluate nodesVLine (7/32) := by
  refine ⟨?_, by norm_num, ?_, ?_, ?_⟩ <;>
    norm_num [newton_refine, nodesQuartic, nodesVLine, evaluate, deCasteljau, blendStep,
      evaluate_hodograph, hodograph_nodes]

theorem cramer_step (u1 u2 v1 v2 fx fy : ℚ)
    (hD : u1 * -v2 - -v1 * u2 ≠ 0) :
    fx + ((-fx * -v2 - -v1 * -fy) / (u1 * -v2 - -v1 * u2)) * u1
       - ((u1 * -fy - -fx * u2) / (u1 * -v2 - -v1 * u2)) * v1 = 0 ∧
    fy + ((-fx * -v2 - -v1 * -fy) / (u1 * -v2 - -v1 * u2)) * u2
       - ((u1 * -fy - -fx * u2) / (u1 * -v2 - -v1 * u2)) * v2 = 0 := by
  constructor
  · calc fx + ((-fx * -v2 - -v1 * -fy) / (u1 * -v2 - -v1 * u2)) * u1
          - ((u1 * -fy - -fx * u2) / (u1 * -v2 - -v1 * u2)) * v1
        = fx + (-fx * (u1 * -v2 - -v1 * u2)) / (u1 * -v2 - -v1 * u2) := by
          rw [show (-fx * (u1 * -v2 - -v1 * u2)) =
            ((-fx * -v2 - -v1 * -fy) * u1 - (u1 * -fy - -fx * u2) * v1) from by ring]
          ring
      _ = fx + -fx := by rw [mul_div_assoc, div_self hD, mul_one]
      _ = 0 := by ring
  · calc fy + ((-fx * -v2 - -v1 * -fy) / (u1 * -v2 - -v1 * u2)) * u2
          - ((u1 * -fy - -fx * u2) / (u1 * -v2 - -v1 * u2)) * v2
        = fy + (-fy * (u1 * -v2 - -v1 * u2)) / (u1 * -v2 - -v1 * u2) := by
          rw [show (-fy * (u1 * -v2 - -v1 * u2)) =
            ((-fx * -v2 - -v1 * -fy) * u2 - (u1 * -fy - -fx * u2) * v2) from by ring]
          ring
      _ = fy + -fy := by rw [mul_div_assoc, div_self hD, mul_one]
      _ = 0 := by ring

/-- Claim C5: on two degree-1 curves one Newton step reaches the exact
root; in particular for [[0,0],[1,1]] and [[1,0],[0,3]] (which meet at
(3/4, 1/4)) one call from (5/8, 3/8) returns exactly (3/4, 1/4). -/
theorem newton_refine_linear_exact :
    (∀ (a0 a1 b0 b1 : Point) (s t s' t' : ℚ),
       newton_refine s [a0, a1] t [b0, b1] = some (s', t') →
       evaluate [a0, a1] s' = evaluate [b0, b1] t')
    ∧ evaluate nodesLin1 (3/4) = evaluate nodesLin2 (1/4)
    ∧ newton_refine (5/8) nodesLin1 (3/8) nodesLin2 = some (3/4, 1/4) := by
  refine ⟨?_, ?_, ?_⟩
  · intro a0 a1 b0 b1 s t s' t' h
    simp only [newton_refine, evaluate_hodograph_line, evaluate_line] at h
    by_cases hF : (1 - s) * a0.1 + s * a1.1 - ((1 - t) * b0.1 + t * b1.1) = 0 ∧
        (1 - s) * a0.2 + s * a1.2 - ((1 - t) * b0.2 + t * b1.2) = 0
    · rw [if_pos hF] at h
      injection h with h'
      obtain ⟨rfl, rfl⟩ := Prod.ext_iff.mp h'
      rw [evaluate_line, evaluate_line, Prod.mk.injEq]
      constructor <;> linarith [hF.1, hF.2]
    · rw [if_neg hF] at h
      by_cases hdet : (a1.1 - a0.1) * -(b1.2 - b0.2) - -(b1.1 - b0.1) * (a1.2 - a0.2) = 0
      · rw [if_pos hdet] at h
        exact absurd h (by simp)
      · rw [if_neg hdet] at h
        injection h with h'
        obtain ⟨rfl, rfl⟩ := Prod.ext_iff.mp h'
        have hc := cramer_step (a1.1 - a0.1) (a1.2 - a0.2) (b1.1 - b0.1) (b1.2 - b0.2)
          ((1 - s) * a0.1 + s * a1.1 - ((1 - t) * b0.1 + t * b1.1))
          ((1 - s) * a0.2 + s * a1.2 - ((1 - t) * b0.2 + t * b1.2)) hdet
        rw [evaluate_line, evaluate_line, Prod.mk.injEq]
        constructor
        · linear_combination hc.1
        · linear_combination hc.2
  · norm_num [nodesLin1, nodesLin2, evaluate, deCasteljau, blendStep]
  · norm_num [nodesLin1, nodesLin2, newton_refine, evaluate, deCasteljau, blendStep,
      evaluate_hodograph, hodograph_nodes]

/-- Witness for one-step exactness: the concrete linear pair from the
tests, with the Newton step hypothesis discharged by computation. -/
theorem newton_refine_linear_exact_witness :
    newton_refine (5/8) nodesLin1 (3/8) nodesLin2 = some (3/4, 1/4)
    ∧ evaluate nodesLin1 (3/4) = evaluate nodesLin2 (1/4) := by
  have h : newton_refine (5/8) [((0:ℚ), (0:ℚ)), (1, 1)] (3/8) [((1:ℚ), (0:ℚ)), (0, 3)] =
      some (3/4, 1/4) := by
    norm_num [newton_refine, evaluate, deCasteljau, blendStep,
      evaluate_hodograph, hodograph_nodes]
  exact ⟨h, newton_refine_linear_exact.1 _ _ _ _ _ _ _ _ h⟩

theorem sqNorm_nonneg (v : Point) : 0 ≤ sqNorm v := by
  have h1 := sq_nonneg v.1
  have h2 := sq_nonneg v.2
  simp only [sqNorm]
  positivity

theorem maxSqNorm_cons (v : Point) (l : List Point) :
    maxSqNorm (v :: l) = max (sqNorm v) (maxSqNorm l) := rfl

theorem maxEuclidNorm_cons (v : Point) (l : List Point) :
    maxEuclidNorm (v :: l) =
      max (Real.sqrt ((v.1 : ℝ) ^ 2 + (v.2 : ℝ) ^ 2)) (maxEuclidNorm l) := rfl

theorem sqrt_monotone : Monotone Real.sqrt := fun _ _ h => Real.sqrt_le_sqrt h

theorem sqrt_maxSqNorm (l : List Point) :
    Real.sqrt ((maxSqNorm l : ℚ) : ℝ) = maxEuclidNorm l := by
  induction l with
  | nil => simp [maxSqNorm, maxEuclidNorm]
  | cons v t ih =>
    rw [maxSqNorm_cons, maxEuclidNorm_cons, ← ih]
    rw [Rat.cast_max, sqrt_monotone.map_max]
    congr 1
    push_cast [sqNorm]
    ring_nf

theorem length_first_diffs (l : List Point) : (first_diffs l).length = l.length - 1 := by
  simp [first_diffs]

theorem first_diffs_getD (l : List Point) (i : Nat) (h : i + 1 < l.length) :
    (first_diffs l).getD i (0, 0) =
      ((l.getD (i+1) (0, 0)).1 - (l.getD i (0, 0)).1,
       (l.getD (i+1) (0, 0)).2 - (l.getD i (0, 0)).2) := by
  have hb : i < (first_diffs l).length := by rw [length_first_diffs]; omega
  have h1 : i < l.length := by omega
  have h2 : i < l.tail.length := by simp; omega
  rw [List.getD_eq_getElem _ _ hb, List.getD_eq_getElem _ _ h1,
      List.getD_eq_getElem _ _ h]
  simp [first_diffs, List.getElem_zipWith, List.getElem_tail]

theorem sqrt_div_sixteen (x : ℝ) (hx : 0 ≤ x) :
    Real.sqrt (x / 16) = Real.sqrt x / 4 := by
  rw [show x / 16 = x * (1/4)^2 by ring, Real.sqrt_mul hx,
      Real.sqrt_sq (by norm_num : (0:ℝ) ≤ 1/4)]
  ring

/-- Claim C4: linearization_error is 0 for degree at most 1, and for
degree n >= 2 it equals (n(n-1)/8) times the largest Euclidean norm of
the second differences d2[i] = p[i+2] - 2 p[i+1] + p[i]. -/
theorem linearization_error_formula (nodes : List Point) :
    (nodes.length ≤ 2 → linearization_error nodes = 0)
    ∧ (3 ≤ nodes.length →
        linearization_error nodes =
          (((nodes.length - 1) * (nodes.length - 2) : ℕ) : ℝ) / 8 *
            maxEuclidNorm (second_diffs nodes)
        ∧ (second_diffs nodes).length = nodes.length - 2
        ∧ ∀ i, i + 2 < nodes.length →
            (second_diffs nodes).getD i (0, 0) =
              ((nodes.getD (i+2) (0, 0)).1 - 2 * (nodes.getD (i+1) (0, 0)).1 +
                 (nodes.getD i (0, 0)).1,
               (nodes.getD (i+2) (0, 0)).2 - 2 * (nodes.getD (i+1) (0, 0)).2 +
                 (nodes.getD i (0, 0)).2)) := by
  refine ⟨fun h => ?_, fun h => ⟨?_, ?_, fun i hi => ?_⟩⟩
  · simp only [linearization_error]
    rw [if_pos (by omega)]
  · simp only [linearization_error]
    rw [if_neg (by omega), sqrt_maxSqNorm,
        show nodes.length - 1 - 1 = nodes.length - 2 from by omega]
  · simp only [second_diffs, length_first_diffs]
    omega
  · rw [second_diffs,
        first_diffs_getD _ _ (by rw [length_first_diffs]; omega),
        first_diffs_getD _ _ (by omega : i + 1 + 1 < nodes.length),
        first_diffs_getD _ _ (by omega : i + 1 < nodes.length)]
    simp only [Prod.mk.injEq]
    constructor <;> ring

/-- Witness for the linearization-error formula at the degree-1 and the
quartic test curves, with the degree hypotheses discharged. -/
theorem linearization_error_formula_witness :
    (([((0:ℚ), (0:ℚ)), (1, 2)] : List Point).length ≤ 2
      ∧ linearization_error [((0:ℚ), (0:ℚ)), (1, 2)] = 0)
    ∧ (3 ≤ ([((0:ℚ), (0:ℚ)), (1, 1), (5, 6), (6, 7), (4, 7)] : List Point).length
      ∧ (second_diffs [((0:ℚ), (0:ℚ)), (1, 1), (5, 6), (6, 7), (4, 7)]).length = 3) :=
  ⟨⟨by norm_num, (linearization_error_formula _).1 (by norm_num)⟩,
   ⟨by norm_num, by
      have h := (linearization_error_formula
        [((0:ℚ), (0:ℚ)), (1, 1), (5, 6), (6, 7), (4, 7)]).2 (by norm_num)
      simpa using h.2.1⟩⟩

theorem maxSqNorm_eq_zero (l : List Point) (h : ∀ v ∈ l, v = ((0:ℚ), (0:ℚ))) :
    maxSqNorm l = 0 := by
  induction l with
  | nil => rfl
  | cons v t ih =>
    rw [maxSqNorm_cons, h v (List.mem_cons_self v t),
        ih (fun w hw => h w (List.mem_cons_of_mem _ hw))]
    simp [sqNorm]

/-- Claim C10: linearization_error is exactly 0 for every curve whose
second differences all vanish (degree-elevated linear curves), such as
the quadratic and quartic elevations of the segment to (1,2). -/
theorem linearization_error_degree_elevated :
    (∀ nodes : List Point, (∀ v ∈ second_diffs nodes, v = ((0:ℚ), (0:ℚ))) →
        linearization_error nodes = 0)
    ∧ linearization_error [((0:ℚ), (0:ℚ)), (1/2, 1), (1, 2)] = 0
    ∧ linearization_error [((0:ℚ), (0:ℚ)), (1/4, 1/2), (1/2, 1), (3/4, 3/2), (1, 2)] = 0 := by
  have key : ∀ nodes : List Point, (∀ v ∈ second_diffs nodes, v = ((0:ℚ), (0:ℚ))) →
      linearization_error nodes = 0 := by
    intro nodes h
    simp only [linearization_error]
    split
    · rfl
    · rw [maxSqNorm_eq_zero _ h]
      simp
  refine ⟨key, key _ ?_, key _ ?_⟩
  · norm_num [second_diffs, first_diffs]
  · norm_num [second_diffs, first_diffs]

/-- Witness for the vanishing-second-differences law at the elevated
quadratic, with the hypothesis discharged by computation. -/
theorem linearization_error_degree_elevated_witness :
    (∀ v ∈ second_diffs [((0:ℚ), (0:ℚ)), (1/2, 1), (1, 2)], v = ((0:ℚ), (0:ℚ)))
    ∧ linearization_error [((0:ℚ), (0:ℚ)), (1/2, 1), (1, 2)] = 0 :=
  ⟨by norm_num [second_diffs, first_diffs],
   linearization_error_degree_elevated.1 _ (by norm_num [second_diffs, first_diffs])⟩
theorem linearization_error_three (a b c : Point) :
    linearization_error [a, b, c] =
      Real.sqrt (((c.1 - 2*b.1 + a.1)^2 + (c.2 - 2*b.2 + a.2)^2 : ℚ) : ℝ) / 4 := by
  have h2 : second_diffs [a, b, c] =
      [(c.1 - b.1 - (b.1 - a.1), c.2 - b.2 - (b.2 - a.2))] := by
    simp [second_diffs, first_diffs]
  have h3 : maxSqNorm [((c.1 - b.1 - (b.1 - a.1), c.2 - b.2 - (b.2 - a.2)) : Point)] =
      (c.1 - 2*b.1 + a.1)^2 + (c.2 - 2*b.2 + a.2)^2 := by
    rw [maxSqNorm_cons, show maxSqNorm ([] : List Point) = 0 from rfl,
        max_eq_left (sqNorm_nonneg _)]
    simp only [sqNorm]
    ring
  simp only [linearization_error, h2, h3, List.length_cons, List.length_nil]
  norm_num
  ring

theorem splitLeft_three (p0 p1 p2 : Point) :
    (subdivide [p0, p1, p2]).1 =
      [p0, ((p0.1 + p1.1)/2, (p0.2 + p1.2)/2),
       ((p0.1 + 2*p1.1 + p2.1)/4, (p0.2 + 2*p1.2 + p2.2)/4)] := by
  simp only [subdivide, splitLeft, blendStep, List.tail_cons, List.zipWith_cons_cons,
    List.zipWith_nil_right, List.tail_nil, List.zipWith_nil_left]
  norm_num
  refine ⟨⟨?_, ?_⟩, ?_, ?_⟩ <;> ring

theorem splitRight_three (p0 p1 p2 : Point) :
    (subdivide [p0, p1, p2]).2 =
      [((p0.1 + 2*p1.1 + p2.1)/4, (p0.2 + 2*p1.2 + p2.2)/4),
       ((p1.1 + p2.1)/2, (p1.2 + p2.2)/2), p2] := by
  simp only [subdivide, splitRight, splitRightRev, blendStep, List.tail_cons,
    List.zipWith_cons_cons, List.zipWith_nil_right, List.tail_nil, List.zipWith_nil_left,
    List.getLastD, List.reverse_cons, List.reverse_nil]
  norm_num
  refine ⟨⟨?_, ?_⟩, ?_, ?_⟩ <;> ring

/-- Claim C3: subdividing a quadratic at the midpoint divides the
linearization error of each half by exactly 4; for [[0,0],[1,1],[5,6]]
the parent error is 5/4 and each half has error 5/16. -/
theorem linearization_error_quadratic_quarter :
    (∀ p0 p1 p2 : Point,
       linearization_error (subdivide [p0, p1, p2]).1 = linearization_error [p0, p1, p2] / 4
       ∧ linearization_error (subdivide [p0, p1, p2]).2 = linearization_error [p0, p1, p2] / 4)
    ∧ linearization_error [((0:ℚ), (0:ℚ)), (1, 1), (5, 6)] = 5/4
    ∧ linearization_error (subdivide [((0:ℚ), (0:ℚ)), (1, 1), (5, 6)]).1 = 5/16
    ∧ linearization_error (subdivide [((0:ℚ), (0:ℚ)), (1, 1), (5, 6)]).2 = 5/16 := by
  have key : ∀ p0 p1 p2 : Point,
      linearization_error (subdivide [p0, p1, p2]).1 = linearization_error [p0, p1, p2] / 4
      ∧ linearization_error (subdivide [p0, p1, p2]).2 = linearization_error [p0, p1, p2] / 4 := by
    intro p0 p1 p2
    rw [splitLeft_three, splitRight_three, linearization_error_three,
        linearization_error_three, linearization_error_three]
    dsimp only
    constructor
    · rw [show (((p0.1 + 2*p1.1 + p2.1)/4 - 2*((p0.1 + p1.1)/2) + p0.1)^2 +
             ((p0.2 + 2*p1.2 + p2.2)/4 - 2*((p0.2 + p1.2)/2) + p0.2)^2 : ℚ) =
           ((p2.1 - 2*p1.1 + p0.1)^2 + (p2.2 - 2*p1.2 + p0.2)^2)/16 from by ring,
          Rat.cast_div, show ((16:ℚ):ℝ) = 16 from by norm_num,
          sqrt_div_sixteen _ (Rat.cast_nonneg.mpr (by positivity))]
    · rw [show ((p2.1 - 2*((p1.1 + p2.1)/2) + (p0.1 + 2*p1.1 + p2.1)/4)^2 +
             (p2.2 - 2*((p1.2 + p2.2)/2) + (p0.2 + 2*p1.2 + p2.2)/4)^2 : ℚ) =
           ((p2.1 - 2*p1.1 + p0.1)^2 + (p2.2 - 2*p1.2 + p0.2)^2)/16 from by ring,
          Rat.cast_div, show ((16:ℚ):ℝ) = 16 from by norm_num,
          sqrt_div_sixteen _ (Rat.cast_nonneg.mpr (by positivity))]
  have base : linearization_error [((0:ℚ), (0:ℚ)), (1, 1), (5, 6)] = 5/4 := by
    rw [linearization_error_three]
    norm_num
    rw [show (25:ℝ) = 5^2 from by norm_num, Real.sqrt_sq (by norm_num : (0:ℝ) ≤ 5)]
  refine ⟨key, base, ?_, ?_⟩
  · rw [(key _ _ _).1, base]
    norm_num
  · rw [(key _ _ _).2, base]
    norm_num

/-- Claim C7: the derivative is the evaluation, by the same blending rule,
of the hodograph curve with control points degree·(p[i+1] - p[i]), one
degree lower; for a degree-1 curve it is the constant p[1] - p[0]. -/
theorem evaluate_hodograph_spec :
    (∀ (nodes : List Point) (s : ℚ),
        evaluate_hodograph nodes s = evaluate (hodograph_nodes nodes) s)
    ∧ (∀ nodes : List Point, (hodograph_nodes nodes).length = nodes.length - 1)
    ∧ (∀ (nodes : List Point) (i : Nat), i + 1 < nodes.length →
        (hodograph_nodes nodes).getD i (0, 0) =
          (((nodes.length - 1 : ℕ) : ℚ) * ((nodes.getD (i+1) (0, 0)).1 - (nodes.getD i (0, 0)).1),
           ((nodes.length - 1 : ℕ) : ℚ) * ((nodes.getD (i+1) (0, 0)).2 - (nodes.getD i (0, 0)).2)))
    ∧ (∀ (p0 p1 : Point) (s : ℚ),
        evaluate_hodograph [p0, p1] s = (p1.1 - p0.1, p1.2 - p0.2)) := by
  refine ⟨fun nodes s => rfl, fun nodes => ?_, fun nodes i h => ?_, evaluate_hodograph_line⟩
  · simp [hodograph_nodes]
  · have hb : i < (hodograph_nodes nodes).length := by
      simp only [hodograph_nodes, List.length_zipWith, List.length_tail]
      omega
    rw [List.getD_eq_getElem _ _ hb, List.getD_eq_getElem _ _ (by omega : i < nodes.length),
        List.getD_eq_getElem _ _ h]
    simp [hodograph_nodes, List.getElem_zipWith, List.getElem_tail]

/-- Witness for the hodograph control-point law at the degree-1 test
curve, with the index hypothesis discharged. -/
theorem evaluate_hodograph_spec_witness :
    (0 + 1 < ([((0:ℚ), (0:ℚ)), (1, 1)] : List Point).length)
    ∧ (hodograph_nodes [((0:ℚ), (0:ℚ)), (1, 1)]).getD 0 (0, 0) = (1, 1)
    ∧ evaluate_hodograph [((0:ℚ), (0:ℚ)), (1, 1)] (1/4) = (1, 1)
    ∧ evaluate_hodograph [((0:ℚ), (0:ℚ)), (1, 1)] (3/4) = (1, 1) :=
  ⟨by norm_num,
   by simpa using evaluate_hodograph_spec.2.2.1 [((0:ℚ), (0:ℚ)), (1, 1)] 0 (by norm_num),
   by simpa using evaluate_hodograph_spec.2.2.2 ((0:ℚ), (0:ℚ)) ((1:ℚ), (1:ℚ)) (1/4),
   by simpa using evaluate_hodograph_spec.2.2.2 ((0:ℚ), (0:ℚ)) ((1:ℚ), (1:ℚ)) (3/4)⟩

end Bezier
